import Mathlib

/-!
Shallow embedding of the ndcube core: the `NDCube` construction and its
pixel/world coordinate transforms (`ndcube/ndcube.py`), world-coordinate
cropping, and the aligned-axes validation and update helpers
(`ndcube/utils/collection.py`).

Python machine values are modelled as follows: Python ints are `Int`
(arbitrary precision, as in CPython), floats appearing in the relevant
code paths are `Rat` (every concrete value used in the claims is exactly
representable), fallible operations return `Except PyErr`, and the
external collaborators (the WCS solver `all_pix2world`/`all_world2pix`
and the unit-conversion machinery of the quantity type) are function
fields supplied with each object, as the spec treats them as external
interfaces.
-/

/-- Python-level runtime error kinds raised by the embedded code.  Distinct
`ValueError` messages in the source are distinct constructors here. -/
inductive PyErr
  /-- IndexError from indexing a list/array out of range. -/
  | indexError
  /-- TypeError, e.g. subscripting an `int`. -/
  | typeError
  /-- KeyError from a missing dict key. -/
  | keyError
  /-- astropy UnitConversionError from `.to` between incompatible units. -/
  | unitConvError
  /-- "The number of data dimensions and number of wcs non-missing axes do not match." -/
  | rankMismatchError
  /-- "lower_left_corner and dimension_widths must have same number of elements ..." -/
  | cropArgsError
  /-- "aligned_axes must have a tuple for each element in data." -/
  | tupleForEachError
  /-- "Each element in aligned_axes must have same length." -/
  | sameLengthError
  /-- "Each cube in data must have at least as many axes as aligned axes ..." -/
  | axisRangeError
  /-- "aligned_axes must contain ints or a tuple of ints for each element in data." -/
  | alignedTypeError
  /-- "Aligned cube/sequence axes must be of same length." -/
  | alignedAxesLengthError
  /-- "Aligned axes are not all of same length." -/
  | notSameLengthError
  /-- ValueError from `max(())` on an empty sequence. -/
  | emptyMaxError
  deriving DecidableEq, Repr

/-- Whether an `Except` computation raised. -/
def isErr {ε α : Type} : Except ε α → Bool
  | .error _ => true
  | .ok _ => false

instance {ε α : Type} [DecidableEq ε] [DecidableEq α] : DecidableEq (Except ε α) :=
  fun x y =>
    match x, y with
    | .error a, .error b =>
      if h : a = b then .isTrue (by rw [h]) else
        .isFalse (by intro hh; injection hh; contradiction)
    | .ok a, .ok b =>
      if h : a = b then .isTrue (by rw [h]) else
        .isFalse (by intro hh; injection hh; contradiction)
    | .error _, .ok _ => .isFalse (by intro hh; cases hh)
    | .ok _, .error _ => .isFalse (by intro hh; cases hh)

/-- Python sequence indexing `l[i]` (also 1-d numpy indexing): a negative
index counts from the end; anything still out of range raises IndexError. -/
def pyGet {α : Type} (l : List α) (i : Int) : Except PyErr α :=
  let j : Int := if i < 0 then i + l.length else i
  if j < 0 then .error .indexError
  else
    match l.get? j.toNat with
    | some a => .ok a
    | none => .error .indexError

/-- A unit-tagged numeric value: the external physical-quantity type. -/
structure Quantity where
  value : Rat
  unit : String
  deriving DecidableEq, Repr

/-- External unit arithmetic: `factor a b` is the multiplicative conversion
factor from unit `a` to unit `b`, `none` when the units are incompatible
(astropy raises in that case). -/
structure UnitConv where
  factor : String → String → Option Rat

/-- `q.to(target)` of the external quantity type, extracting `.value`. -/
def qto (uc : UnitConv) (q : Quantity) (target : String) : Except PyErr Rat :=
  match uc.factor q.unit target with
  | some f => .ok (f * q.value)
  | none => .error .unitConvError

/-- `a + b` on quantities: the right operand is converted to the left
operand's unit, as the external quantity type does. -/
def qadd (uc : UnitConv) (a b : Quantity) : Except PyErr Quantity :=
  match uc.factor b.unit a.unit with
  | some f => .ok ⟨a.value + f * b.value, a.unit⟩
  | none => .error .unitConvError

/-- The external coordinate-transform descriptor (`ndcube.wcs.wcs.WCS`):
axis count, per-axis reference pixel / reference world value / unit / type
(all indexed in WCS order), and the external forward and inverse solvers. -/
structure WCS where
  naxis : Nat
  crpix : List Rat
  crval : List Rat
  cunit : List String
  ctype : List String
  all_pix2world : List Rat → Int → List Rat
  all_world2pix : List Rat → Int → List Rat

/-- The state of a constructed `NDCube` that the core operations read:
the data's storage rank (`data.ndim`), the WCS object, and the
`missing_axis` flags (WCS order, i.e. reverse of data order). -/
structure NDCubeM where
  ndim : Nat
  wcs : WCS
  missing_axis : List Bool

/-- Number of `False` entries of a `missing_axis` list (the loop
`for bool_ in self.missing_axis: if not bool_: count += 1`). -/
def count_non_missing (missing_axis : List Bool) : Nat :=
  (missing_axis.filter (fun b => !b)).length

/-- `NDCube.__init__` restricted to the state the core reads (`data` enters
only through `data.ndim`; `extra_coords` is not supplied).  CPython's
`is`/`is not` on these small ints (`data.ndim ≤ 64`, interned range) agrees
with value equality, so it is embedded as `≠`. -/
def NDCube_init (ndim : Nat) (wcs : WCS) (missing_axis : Option (List Bool)) :
    Except PyErr NDCubeM :=
  let ma : List Bool :=
    match missing_axis with
    | none => List.replicate wcs.naxis false
    | some m => m
  if ndim ≠ wcs.naxis then
    if count_non_missing ma ≠ ndim then .error .rankMismatchError
    else .ok ⟨ndim, wcs, ma⟩
  else .ok ⟨ndim, wcs, ma⟩

/-- `np.rint`: round to the nearest integer, ties to the nearest even
integer (IEEE round-half-to-even; exact on the rationals involved). -/
def rint (q : Rat) : Int :=
  if q - ⌊q⌋ < 1 / 2 then ⌊q⌋
  else if 1 / 2 < q - ⌊q⌋ then ⌊q⌋ + 1
  else if ⌊q⌋ % 2 = 0 then ⌊q⌋ else ⌊q⌋ + 1

/-- Modelled from the spec: the rounding rule the spec fixes for pixel
boundaries, round half away from zero. -/
def round_half_away_from_zero (q : Rat) : Int :=
  if q < 0 then -⌊-q + 1 / 2⌋ else ⌊q + 1 / 2⌋

/-- The argument-building loop of `NDCube.pixel_to_world`: for each `i` in
`range(len(self.missing_axis))` take `wcs_index = naxis - 1 - i`; a missing
axis contributes `crpix[wcs_index] - 1 + origin`, a present axis consumes
the next entry of `quantity_axis_list` converted to pixel units and records
`wcs_index` in `indexed_not_as_one`.  Returns `(list_arg, indexed_not_as_one)`
in append order. -/
def p2w_build (uc : UnitConv) (c : NDCubeM) (quantity_axis_list : List Quantity)
    (origin : Int) : List Nat → Nat → Except PyErr (List Rat × List Int)
  | [], _ => .ok ([], [])
  | i :: rest, quantity_index =>
    let wcs_index : Int := (c.wcs.naxis : Int) - 1 - i
    match pyGet c.missing_axis wcs_index with
    | .error e => .error e
    | .ok true =>
      match pyGet c.wcs.crpix wcs_index with
      | .error e => .error e
      | .ok cr =>
        match p2w_build uc c quantity_axis_list origin rest quantity_index with
        | .error e => .error e
        | .ok (args, idxs) => .ok ((cr - 1 + origin) :: args, idxs)
    | .ok false =>
      match pyGet quantity_axis_list (quantity_index : Int) with
      | .error e => .error e
      | .ok q =>
        match qto uc q "pix" with
        | .error e => .error e
        | .ok v =>
          match p2w_build uc c quantity_axis_list origin rest (quantity_index + 1) with
          | .error e => .error e
          | .ok (args, idxs) => .ok (v :: args, wcs_index :: idxs)

/-- The result-collection loop of `pixel_to_world`: for each recorded index,
`u.Quantity(res[index], unit=self.wcs.wcs.cunit[index])`, in append order. -/
def collect_world (c : NDCubeM) (res : List Rat) : List Int → Except PyErr (List Quantity)
  | [] => .ok []
  | index :: rest =>
    match pyGet res index with
    | .error e => .error e
    | .ok v =>
      match pyGet c.wcs.cunit index with
      | .error e => .error e
      | .ok cu =>
        match collect_world c res rest with
        | .error e => .error e
        | .ok r => .ok (⟨v, cu⟩ :: r)

/-- `NDCube.pixel_to_world`. -/
def pixel_to_world (uc : UnitConv) (c : NDCubeM) (quantity_axis_list : List Quantity)
    (origin : Int) : Except PyErr (List Quantity) :=
  match p2w_build uc c quantity_axis_list origin (List.range c.missing_axis.length) 0 with
  | .error e => .error e
  | .ok (list_arg, indexed_not_as_one) =>
    let list_arguments := list_arg.reverse
    let res := c.wcs.all_pix2world list_arguments origin
    match collect_world c res indexed_not_as_one.reverse with
    | .error e => .error e
    | .ok result => .ok result.reverse

/-- The argument-building loop of `NDCube.world_to_pixel`: a missing axis
contributes `crval[wcs_index] + 1 - origin`, a present axis consumes the
next entry of `quantity_axis_list` converted to `cunit[wcs_index]`. -/
def w2p_build (uc : UnitConv) (c : NDCubeM) (quantity_axis_list : List Quantity)
    (origin : Int) : List Nat → Nat → Except PyErr (List Rat × List Int)
  | [], _ => .ok ([], [])
  | i :: rest, quantity_index =>
    let wcs_index : Int := (c.wcs.naxis : Int) - 1 - i
    match pyGet c.missing_axis wcs_index with
    | .error e => .error e
    | .ok true =>
      match pyGet c.wcs.crval wcs_index with
      | .error e => .error e
      | .ok cv =>
        match w2p_build uc c quantity_axis_list origin rest quantity_index with
        | .error e => .error e
        | .ok (args, idxs) => .ok ((cv + 1 - origin) :: args, idxs)
    | .ok false =>
      match pyGet quantity_axis_list (quantity_index : Int) with
      | .error e => .error e
      | .ok q =>
        match pyGet c.wcs.cunit wcs_index with
        | .error e => .error e
        | .ok cu =>
          match qto uc q cu with
          | .error e => .error e
          | .ok v =>
            match w2p_build uc c quantity_axis_list origin rest (quantity_index + 1) with
            | .error e => .error e
            | .ok (args, idxs) => .ok (v :: args, wcs_index :: idxs)

/-- The result-collection loop of `world_to_pixel`:
`u.Quantity(res[index], unit=u.pix)` for each recorded index. -/
def collect_pixel (res : List Rat) : List Int → Except PyErr (List Quantity)
  | [] => .ok []
  | index :: rest =>
    match pyGet res index with
    | .error e => .error e
    | .ok v =>
      match collect_pixel res rest with
      | .error e => .error e
      | .ok r => .ok (⟨v, "pix"⟩ :: r)

/-- `NDCube.world_to_pixel`. -/
def world_to_pixel (uc : UnitConv) (c : NDCubeM) (quantity_axis_list : List Quantity)
    (origin : Int) : Except PyErr (List Quantity) :=
  match w2p_build uc c quantity_axis_list origin (List.range c.missing_axis.length) 0 with
  | .error e => .error e
  | .ok (list_arg, indexed_not_as_one) =>
    let list_arguments := list_arg.reverse
    let res := c.wcs.all_world2pix list_arguments origin
    match collect_pixel res indexed_not_as_one.reverse with
    | .error e => .error e
    | .ok result => .ok result.reverse

/-- Evaluating `len(self.dimensions.shape)`: the `dimensions` property builds
`axes_ctype` by reading `ctype[i]` for every non-missing flag position (which
can raise), and its `shape` has one entry per data dimension. -/
def dimensions_len (c : NDCubeM) : Except PyErr Nat :=
  let idxs := (List.range c.missing_axis.length).filter
    (fun i => !(c.missing_axis.getD i true))
  match idxs.mapM (fun i => pyGet c.wcs.ctype (i : Int)) with
  | .error e => .error e
  | .ok _ => .ok c.ndim

/-- `NDCube.crop_by_coords`, up to the final delegation to the slicing
collaborator: returns the per-axis half-open pixel ranges passed to
`self[slic]`.  The guard embeds the source's chained comparison
`len(lower_left_corner) != len(dimension_widths) != n_dim`, which in Python
means `len(llc) != len(dw)  and  len(dw) != n_dim`. -/
def crop_by_coords (uc : UnitConv) (c : NDCubeM)
    (lower_left_corner dimension_widths : List Quantity) :
    Except PyErr (List (Int × Int)) :=
  match dimensions_len c with
  | .error e => .error e
  | .ok n_dim =>
    if lower_left_corner.length ≠ dimension_widths.length ∧
        dimension_widths.length ≠ n_dim then
      .error .cropArgsError
    else
      match world_to_pixel uc c lower_left_corner 0 with
      | .error e => .error e
      | .ok lower_pixels_q =>
        match (List.range n_dim).mapM (fun i =>
            (match pyGet lower_left_corner (i : Int) with
            | .error e => .error e
            | .ok a =>
              match pyGet dimension_widths (i : Int) with
              | .error e => .error e
              | .ok b => qadd uc a b : Except PyErr Quantity)) with
        | .error e => .error e
        | .ok upper_corner =>
          match world_to_pixel uc c upper_corner 0 with
          | .error e => .error e
          | .ok upper_pixels_q =>
            let lower_pixels := lower_pixels_q.map (fun q => rint q.value)
            let upper_pixels := upper_pixels_q.map (fun q => rint q.value)
            (List.range n_dim).mapM (fun i =>
              (match pyGet lower_pixels (i : Int) with
              | .error e => .error e
              | .ok lo =>
                match pyGet upper_pixels (i : Int) with
                | .error e => .error e
                | .ok hi => .ok (lo, hi) : Except PyErr (Int × Int)))

/-- The shapes in which `aligned_axes` can be supplied to
`_sanitize_aligned_axes`: a single int, a tuple of ints, or a tuple of
tuples of ints. -/
inductive AlignedAxesSpec
  | anInt (n : Int)
  | aTuple (l : List Int)
  | aTupleTuple (l : List (List Int))

/-- Python `max` over a tuple of ints; raises ValueError on an empty tuple. -/
def pyMax (l : List Int) : Except PyErr Int :=
  match l with
  | [] => .error .emptyMaxError
  | a :: rest => .ok (rest.foldl max a)

/-- `len(set(l))`. -/
def distinct_count (l : List Nat) : Nat :=
  l.dedup.length

/-- The inner `for j, axis in enumerate(aligned_axes[i])` loop of
`_sanitize_aligned_axes`: `cube_lengths_equal[j] = data[i].dimensions[axis]
== cube0_dims[j]` (the int-instance flags are true by the typing of this
embedding). -/
def cube_lengths_check (dims cube0_dims : List Nat) :
    List Int → Nat → Except PyErr (List Bool)
  | [], _ => .ok []
  | axis :: rest, j =>
    match pyGet dims axis with
    | .error e => .error e
    | .ok d =>
      match pyGet cube0_dims (j : Int) with
      | .error e => .error e
      | .ok c0 =>
        match cube_lengths_check dims cube0_dims rest (j + 1) with
        | .error e => .error e
        | .ok r => .ok (decide (d = c0) :: r)

/-- The per-cube `for i in range(n_cubes)` loop of `_sanitize_aligned_axes`
(tuple-of-tuples branch): fail if `n_cube_dims < max(max_aligned_axis,
n_aligned_axes)`, then record whether all designated extents of this cube
equal `cube0_dims`. -/
def member_checks (cube0_dims : List Nat) (n_aligned_axes : Nat) :
    List (List Nat × List Int) → Except PyErr (List Bool)
  | [] => .ok []
  | (dims, axes) :: rest =>
    match pyMax axes with
    | .error e => .error e
    | .ok max_aligned_axis =>
      if (dims.length : Int) < max max_aligned_axis (n_aligned_axes : Int) then
        .error .axisRangeError
      else
        match cube_lengths_check dims cube0_dims axes 0 with
        | .error e => .error e
        | .ok flags =>
          match member_checks cube0_dims n_aligned_axes rest with
          | .error e => .error e
          | .ok r => .ok (flags.all id :: r)

/-- The closing check of `_sanitize_aligned_axes`:
`check_dimensions = set([len(set([cube.dimensions[axes[j]] ...])) for j ...])`
must equal `{1}` — that is, the position range must be non-empty and every
position's extents must collapse to a single value. -/
def final_same_length_check (data : List (List Nat)) (aligned : List (List Int))
    (n_aligned_axes : Nat) : Except PyErr Unit :=
  match (List.range n_aligned_axes).mapM (fun j =>
      (match (data.zip aligned).mapM (fun p =>
          (match pyGet p.2 (j : Int) with
          | .error e => .error e
          | .ok a => pyGet p.1 a : Except PyErr Nat)) with
      | .error e => .error e
      | .ok exts => .ok (distinct_count exts) : Except PyErr Nat)) with
  | .error e => .error e
  | .ok counts =>
    if n_aligned_axes ≠ 0 ∧ counts.all (fun n => n == 1) then .ok ()
    else .error .notSameLengthError

/-- `_sanitize_aligned_axes(data, aligned_axes)`, with each collection member
represented by its `dimensions` extents (a pixel-`Quantity` vector in the
source; extent values here).  Note the source computes
`cube0_dims = data[0].dimensions[np.array(aligned_axes[0])]` *before* the
`isinstance(aligned_axes, int)` normalization, so a bare-int spec hits
`aligned_axes[0]` on an `int` and raises TypeError. -/
def sanitize_aligned_axes (data : List (List Nat)) (aligned_axes : AlignedAxesSpec) :
    Except PyErr (List (List Int)) :=
  match data with
  | [] => .error .indexError
  | dims0 :: _ =>
    match aligned_axes with
    | .anInt _ => .error .typeError
    | .aTuple l =>
      match pyGet l 0 with
      | .error e => .error e
      | .ok h =>
        match pyGet dims0 h with
        | .error e => .error e
        | .ok _ =>
          let n_cubes := data.length
          let n_aligned_axes := l.length
          let aligned := List.replicate n_cubes l
          match final_same_length_check data aligned n_aligned_axes with
          | .error e => .error e
          | .ok _ => .ok aligned
    | .aTupleTuple ll =>
      match pyGet ll 0 with
      | .error e => .error e
      | .ok first =>
        match first.mapM (fun ax => pyGet dims0 ax) with
        | .error e => .error e
        | .ok cube0_dims =>
          let n_cubes := data.length
          if ll.length ≠ n_cubes then .error .tupleForEachError
          else
            let n_aligned_axes := first.length
            if ll.all (fun axes => axes.length == n_aligned_axes) then
              match member_checks cube0_dims n_aligned_axes (data.zip ll) with
              | .error e => .error e
              | .ok same_flags =>
                if same_flags.all id then
                  match final_same_length_check data ll n_aligned_axes with
                  | .error e => .error e
                  | .ok _ => .ok ll
                else .error .alignedAxesLengthError
              else .error .sameLengthError

/-- `np.delete(l, i)` with a scalar index (negative indices wrap). -/
def npDelete (l : List Int) (i : Int) : Except PyErr (List Int) :=
  let j : Int := if i < 0 then i + l.length else i
  if j < 0 then .error .indexError
  else if j.toNat < l.length then .ok (l.eraseIdx j.toNat)
  else .error .indexError

/-- The inner `for drop_axis_index in drop_aligned_axes_indices` loop of
`_update_aligned_axes` for one member: the numpy iterator reads the *live*
array position by position, the member tuple loses the designated entry with
larger surviving axis numbers decremented, and the (shared, in-place mutated)
drop-position array has every value larger than the one just processed
decremented.  `n` counts the remaining positions, `t` is the current one. -/
def member_drop_loop : Nat → Nat → List Int → List Int →
    Except PyErr (List Int × List Int)
  | 0, _, cube_aligned_axes, drops => .ok (cube_aligned_axes, drops)
  | n + 1, t, cube_aligned_axes, drops =>
    match pyGet drops (t : Int) with
    | .error e => .error e
    | .ok drop_axis_index =>
      match pyGet cube_aligned_axes drop_axis_index with
      | .error e => .error e
      | .ok drop_axis =>
        match npDelete cube_aligned_axes drop_axis_index with
        | .error e => .error e
        | .ok erased =>
          let renumbered := erased.map (fun a => if drop_axis < a then a - 1 else a)
          let drops' := drops.map (fun d => if drop_axis_index < d then d - 1 else d)
          member_drop_loop n (t + 1) renumbered drops'

/-- The outer `for key in aligned_axes.keys()` loop of `_update_aligned_axes`:
the mutated drop-position array from one member carries over to the next. -/
def update_members : List (List Int) → List Int → Except PyErr (List (List Int))
  | [], _ => .ok []
  | cube :: rest, drops =>
    match member_drop_loop drops.length 0 cube drops with
    | .error e => .error e
    | .ok (cube', drops') =>
      match update_members rest drops' with
      | .error e => .error e
      | .ok r => .ok (cube' :: r)

/-- `_update_aligned_axes(drop_aligned_axes_indices, aligned_axes, first_key)`,
with the dict of per-member tuples represented as the list of its values in
key order (`first_key` is the first key). -/
def update_aligned_axes (drop_aligned_axes_indices : List Int)
    (aligned_axes : List (List Int)) : Except PyErr (Option (List (List Int))) :=
  if drop_aligned_axes_indices.length = 0 then .ok (some aligned_axes)
  else
    match aligned_axes with
    | [] => .error .keyError
    | first :: _ =>
      if drop_aligned_axes_indices.length = first.length then .ok none
      else
        match update_members aligned_axes drop_aligned_axes_indices with
        | .error e => .error e
        | .ok r => .ok (some r)

/-- Unit conversion collaborator used in concrete runs: identical units
convert with factor 1, anything else is incompatible. -/
def ucStd : UnitConv := ⟨fun a b => if a = b then some 1 else none⟩

/-- A 1-axis WCS whose solvers are the identity. -/
def wcsPix1 : WCS :=
  { naxis := 1, crpix := [1], crval := [0], cunit := ["pix"], ctype := ["PIXEL"],
    all_pix2world := fun args _ => args, all_world2pix := fun args _ => args }

/-- A rank-1 cube over `wcsPix1` with no missing axis. -/
def cubePix1 : NDCubeM := { ndim := 1, wcs := wcsPix1, missing_axis := [false] }

/-- An inverse solver that swaps its two arguments, so that the value the
code substitutes for the missing WCS axis 0 becomes visible in the kept
output component (WCS axis 1). -/
def swap2 : List Rat → Int → List Rat := fun args _ =>
  match args with
  | [a, b] => [b, a]
  | l => l

/-- A 2-axis WCS (reference world value 5 on axis 0) whose inverse solver
is `swap2`. -/
def wcsMissing2 : WCS :=
  { naxis := 2, crpix := [7, 1], crval := [5, 0], cunit := ["m", "s"],
    ctype := ["WAVE", "TIME"],
    all_pix2world := fun args _ => args, all_world2pix := swap2 }

/-- A rank-1 cube over `wcsMissing2` whose WCS axis 0 is missing. -/
def cubeMissing2 : NDCubeM := { ndim := 1, wcs := wcsMissing2, missing_axis := [true, false] }

/-- A 2-axis WCS with identity solvers and metre units. -/
def wcsId2 : WCS :=
  { naxis := 2, crpix := [1, 1], crval := [0, 0], cunit := ["m", "m"], ctype := ["A", "B"],
    all_pix2world := fun args _ => args, all_world2pix := fun args _ => args }

/-- A rank-2 cube over `wcsId2` with no missing axes. -/
def cubeId2 : NDCubeM := { ndim := 2, wcs := wcsId2, missing_axis := [false, false] }

/-- A 1-axis WCS whose inverse solver halves its argument, so that a world
coordinate of 1 lands on the pixel boundary 0.5. -/
def wcsHalf1 : WCS :=
  { naxis := 1, crpix := [1], crval := [0], cunit := ["m"], ctype := ["X"],
    all_pix2world := fun args _ => args,
    all_world2pix := fun args _ => args.map (fun x => x / 2) }

/-- A rank-1 cube over `wcsHalf1` with no missing axis. -/
def cubeHalf1 : NDCubeM := { ndim := 1, wcs := wcsHalf1, missing_axis := [false] }

/-- How many entries of the input list the transform loops consume while
traversing `is`: one per visited non-missing axis, stopping where the
`missing_axis` lookup itself would raise. -/
def consumed_count (c : NDCubeM) : List Nat → Nat
  | [] => 0
  | i :: rest =>
    match pyGet c.missing_axis ((c.wcs.naxis : Int) - 1 - i) with
    | .ok false => 1 + consumed_count c rest
    | .ok true => consumed_count c rest
    | .error _ => 0

/-- The WCS indexes of the non-missing axes in the order the transform
loops visit them (storage order: WCS index `naxis - 1 - i` for ascending
`i`). -/
def non_missing_wcs_indexes (c : NDCubeM) : List Int :=
  (List.range c.missing_axis.length).filterMap (fun (i : Nat) =>
    match pyGet c.missing_axis ((c.wcs.naxis : Int) - 1 - (i : Int)) with
    | .ok false => some ((c.wcs.naxis : Int) - 1 - (i : Int))
    | _ => none)

/-- The declared world unit at a WCS index (arbitrary when out of range). -/
def cunit_at (c : NDCubeM) (i : Int) : String :=
  match pyGet c.wcs.cunit i with
  | .ok s => s
  | .error _ => ""

/-- The declared world units of the non-missing axes in storage order. -/
def world_units_storage_order (c : NDCubeM) : List String :=
  (non_missing_wcs_indexes c).map (cunit_at c)

/-- C1: `world_to_pixel` does not substitute the missing axis's fixed
reference world value: it substitutes `crval[wcs_index] + 1 - origin`.  With
the default `origin = 0` and `crval[0] = 5` the inverse solver receives 6
(surfaced in the output by the argument-swapping solver); only at
`origin = 1` does it receive the declared reference world value 5. -/
theorem C1_world_to_pixel_missing_axis_anchor :
    world_to_pixel ucStd cubeMissing2 [⟨3, "s"⟩] 0 = .ok [⟨6, "pix"⟩] ∧
    world_to_pixel ucStd cubeMissing2 [⟨3, "s"⟩] 1 = .ok [⟨5, "pix"⟩] ∧
    pyGet cubeMissing2.wcs.crval 0 = .ok 5 := by
  refine ⟨?_, ?_, ?_⟩
  all_goals simp [world_to_pixel, w2p_build, collect_pixel, pyGet, qto, ucStd,
    cubeMissing2, wcsMissing2, swap2, List.range_succ, List.get?]
  all_goals norm_num

/-- C2: `_update_aligned_axes` mutates the shared drop-position array while
processing a member, and the mutated array carries over to the next member:
with drop positions `[0, 2]` a lone member `(1, 3, 0, 2)` correctly becomes
`(1, 0)`, but in a two-member collection the identical second member comes
out as `(0, 1)` — the per-member result depends on how many members precede
it. -/
theorem C2_update_aligned_axes_cross_member_mutation :
    update_aligned_axes [0, 2] [[1, 3, 0, 2]] = .ok (some [[1, 0]]) ∧
    update_aligned_axes [0, 2] [[1, 3, 0, 2], [1, 3, 0, 2]] =
      .ok (some [[1, 0], [0, 1]]) := by
  decide

/-- C5: a bare-int aligned-axes spec is rejected with TypeError because
`aligned_axes[0]` is evaluated before the int is normalized to a tuple,
even though the equivalent one-element tuple spec normalizes fine (and the
unequal-extent variant fails the extent check, as the claim expects). -/
theorem C5_single_int_spec_raises_type_error :
    sanitize_aligned_axes [[4, 5, 10], [6, 7, 10], [8, 9, 10]] (.anInt 2) =
      .error .typeError ∧
    sanitize_aligned_axes [[4, 5, 10], [6, 7, 10], [8, 9, 10]] (.aTuple [2]) =
      .ok [[2], [2], [2]] ∧
    sanitize_aligned_axes [[4, 5, 10], [6, 7, 10], [8, 9, 11]] (.aTuple [2]) =
      .error .notSameLengthError := by
  decide

/-- C7: `crop_by_coords` on a rank-2 cube accepts corner and width lists of
equal length 3 without any error — the chained comparison `len(a) != len(b)
!= n_dim` never compares `len(a)` with `n_dim` — and silently crops using
the first two entries. -/
theorem C7_equal_overlong_corner_lists_accepted :
    ([(⟨0, "m"⟩ : Quantity), ⟨0, "m"⟩, ⟨0, "m"⟩].length ≠ cubeId2.ndim) ∧
    crop_by_coords ucStd cubeId2 [⟨0, "m"⟩, ⟨0, "m"⟩, ⟨0, "m"⟩]
        [⟨2, "m"⟩, ⟨2, "m"⟩, ⟨2, "m"⟩] = .ok [(0, 2), (0, 2)] := by
  constructor
  · decide
  · simp [crop_by_coords, dimensions_len, world_to_pixel, w2p_build, collect_pixel,
      pyGet, qto, qadd, rint, ucStd, cubeId2, wcsId2, List.range_succ, List.get?,
      List.mapM, List.mapM.loop, List.filter, List.getD, Bind.bind, Except.bind,
      Pure.pure, Except.pure]

/-- C8 counterexample: a lower pixel boundary of exactly 0.5 is rounded to
0 by the code (`np.rint`, half-to-even), not to 1 as the claimed
round-half-away-from-zero rule would give. -/
theorem C8_half_boundary_counterexample :
    crop_by_coords ucStd cubeHalf1 [⟨1, "m"⟩] [⟨3, "m"⟩] = .ok [(0, 2)] ∧
    round_half_away_from_zero (1 / 2) = 1 ∧
    rint (1 / 2) = 0 := by
  refine ⟨?_, ?_, ?_⟩
  · simp [crop_by_coords, dimensions_len, world_to_pixel, w2p_build, collect_pixel,
      pyGet, qto, qadd, rint, ucStd, cubeHalf1, wcsHalf1, List.range_succ, List.get?,
      List.mapM, List.mapM.loop, List.filter, List.getD, Bind.bind, Except.bind,
      Pure.pure, Except.pure]
    norm_num [Int.fract]
  · simp [round_half_away_from_zero]
    norm_num
  · simp [rint]
    norm_num [Int.fract]

/-- C4 counterexample: with `data.ndim = wcs.naxis = 1` and
`missing_axis = [True]` the non-missing count is 0 ≠ 1, yet construction
succeeds — the rank check is skipped whenever `data.ndim == wcs.naxis`. -/
theorem C4_missing_flags_unchecked_when_ndim_matches :
    count_non_missing [true] ≠ 1 ∧
    isErr (NDCube_init 1 wcsPix1 (some [true])) = false := by
  decide

/-- C4 (amended): construction fails — and then with the rank-mismatch
error — exactly when `data.ndim ≠ wcs.naxis` *and* the number of non-missing
`missing_axis` entries differs from `data.ndim`; when `data.ndim = wcs.naxis`
the flags are not checked at all. -/
theorem C4_rank_check_iff (ndim : Nat) (wcs : WCS) (m : List Bool) :
    NDCube_init ndim wcs (some m) = .error .rankMismatchError ↔
      ndim ≠ wcs.naxis ∧ count_non_missing m ≠ ndim := by
  unfold NDCube_init
  by_cases h1 : ndim = wcs.naxis
  · simp [h1]
  · by_cases h2 : count_non_missing m = ndim
    · simp [h1, h2]
    · simp [h1, h2]

/-- C3 counterexample: on a rank-1 cube, inputs of length 2 are accepted by
both transforms with no error of any kind; the excess entry is ignored. -/
theorem C3_overlong_input_counterexample :
    ([(⟨2, "pix"⟩ : Quantity), ⟨3, "pix"⟩].length ≠
      count_non_missing cubePix1.missing_axis) ∧
    pixel_to_world ucStd cubePix1 [⟨2, "pix"⟩, ⟨3, "pix"⟩] 0 = .ok [⟨2, "pix"⟩] ∧
    world_to_pixel ucStd cubePix1 [⟨2, "pix"⟩, ⟨3, "pix"⟩] 0 = .ok [⟨2, "pix"⟩] := by
  refine ⟨by decide, ?_, ?_⟩
  all_goals simp [pixel_to_world, p2w_build, collect_world, world_to_pixel,
    w2p_build, collect_pixel, pyGet, qto, ucStd, cubePix1, wcsPix1,
    List.range_succ, List.get?]

/-- `pyGet` at a natural-number index is plain `get?` lookup. -/
theorem pyGet_natCast {α : Type} (l : List α) (j : Nat) :
    pyGet l (j : Int) =
      match l.get? j with
      | some a => .ok a
      | none => .error .indexError := by
  have h0 : ¬ ((j : Int) < 0) := (Int.natCast_nonneg j).not_lt
  simp [pyGet, h0, Int.toNat_natCast]

/-- `pyGet` at an in-range natural index succeeds. -/
theorem pyGet_lt {α : Type} (l : List α) (j : Nat) (h : j < l.length) :
    pyGet l (j : Int) = .ok (l.get ⟨j, h⟩) := by
  rw [pyGet_natCast, List.get?_eq_get h]

/-- `pyGet` past the end at a natural index raises. -/
theorem pyGet_ge {α : Type} (l : List α) (j : Nat) (h : l.length ≤ j) :
    pyGet l (j : Int) = .error .indexError := by
  rw [pyGet_natCast, List.get?_eq_none.mpr h]

/-- `isErr` characterization. -/
theorem isErr_true_iff {ε α : Type} (x : Except ε α) :
    isErr x = true ↔ ∃ e, x = .error e := by
  cases x <;> simp [isErr]

/-- Length of a `filterMap` as a `countP`. -/
theorem length_filterMap_eq_countP {α β : Type} (f : α → Option β) :
    ∀ l : List α, (l.filterMap f).length = l.countP (fun a => (f a).isSome) := by
  intro l
  induction l with
  | nil => simp
  | cons a l ih =>
    cases hf : f a <;>
      simp [List.filterMap_cons, hf, List.countP_cons, ih, Nat.add_comm]

/-- Counting positions of a list by a predicate on its entries. -/
theorem countP_range_getD (p : Bool → Bool) (d : Bool) :
    ∀ m : List Bool,
      (List.range m.length).countP (fun j => p (m.getD j d)) = m.countP p := by
  intro m
  induction m with
  | nil => simp
  | cons b m ih =>
    show (List.range (m.length + 1)).countP (fun j => p ((b :: m).getD j d)) = _
    rw [List.range_succ_eq_map, List.countP_cons, List.countP_map, List.countP_cons]
    have hc : List.countP ((fun j => p ((b :: m).getD j d)) ∘ Nat.succ) (List.range m.length)
        = List.countP (fun j => p (m.getD j d)) (List.range m.length) := by
      apply List.countP_congr
      intro x _
      simp [Function.comp, List.getD_cons_succ]
    rw [hc, ih]
    simp [List.getD_cons_zero]

/-- Counting over `range n` is invariant under the reflection `i ↦ n-1-i`. -/
theorem countP_range_reflect (n : Nat) (p : Nat → Bool) :
    (List.range n).countP (fun i => p (n - 1 - i)) = (List.range n).countP p := by
  have h2 : (List.range n).reverse = (List.range n).map (fun i => n - 1 - i) := by
    have h := List.reverse_range' 0 n
    rw [← List.range_eq_range'] at h
    rw [h]
    simp
  calc (List.range n).countP (fun i => p (n - 1 - i))
      = ((List.range n).map (fun i => n - 1 - i)).countP p := by
        rw [List.countP_map]; rfl
    _ = ((List.range n).reverse).countP p := by rw [h2]
    _ = (List.range n).countP p := ((List.range n).reverse_perm).countP_eq p

/-- With well-formed flags (`len(missing_axis) = naxis`), the transform
loops visit each WCS index exactly once, so the number of recorded
non-missing indexes equals the non-missing count. -/
theorem non_missing_wcs_indexes_length (c : NDCubeM)
    (hS : c.missing_axis.length = c.wcs.naxis) :
    (non_missing_wcs_indexes c).length = count_non_missing c.missing_axis := by
  unfold non_missing_wcs_indexes
  rw [length_filterMap_eq_countP]
  have hcong : ∀ i ∈ List.range c.missing_axis.length,
      ((match pyGet c.missing_axis ((c.wcs.naxis : Int) - 1 - i) with
        | .ok false => some ((c.wcs.naxis : Int) - 1 - i)
        | _ => none).isSome)
      = (!(c.missing_axis.getD (c.missing_axis.length - 1 - i) true)) := by
    intro i hi
    have hi' : i < c.missing_axis.length := List.mem_range.mp hi
    have hle : c.missing_axis.length - 1 - i < c.missing_axis.length := by omega
    have hcast : (c.wcs.naxis : Int) - 1 - i
        = ((c.missing_axis.length - 1 - i : Nat) : Int) := by
      rw [← hS]; omega
    have hget : c.missing_axis.get ⟨c.missing_axis.length - 1 - i, hle⟩
        = c.missing_axis.getD (c.missing_axis.length - 1 - i) true := by
      simp [List.getD_eq_getElem?_getD, List.getElem?_eq_getElem hle, List.get_eq_getElem]
    rw [hcast, pyGet_lt _ _ hle, hget]
    cases c.missing_axis.getD (c.missing_axis.length - 1 - i) true <;> rfl
  rw [List.countP_congr (fun x hx => by rw [hcong x hx])]
  rw [countP_range_reflect c.missing_axis.length (fun j => !(c.missing_axis.getD j true))]
  rw [countP_range_getD (fun b => !b) true c.missing_axis]
  unfold count_non_missing
  rw [List.countP_eq_length_filter]

/-- `consumed_count` as the length of the recorded-index list, given that
no `missing_axis` lookup raises along the way. -/
theorem consumed_count_eq_filterMap (c : NDCubeM) :
    ∀ is : List Nat,
      (∀ i ∈ is, ¬ isErr (pyGet c.missing_axis ((c.wcs.naxis : Int) - 1 - i)) = true) →
      consumed_count c is
        = (is.filterMap (fun (i : Nat) =>
            match pyGet c.missing_axis ((c.wcs.naxis : Int) - 1 - (i : Int)) with
            | .ok false => some ((c.wcs.naxis : Int) - 1 - (i : Int))
            | _ => none)).length := by
  intro is
  induction is with
  | nil =>
    intro _
    simp [consumed_count]
  | cons i rest ih =>
    intro h
    have hi := h i (List.mem_cons_self i rest)
    have hrest := fun j hj => h j (List.mem_cons_of_mem _ hj)
    cases hm : pyGet c.missing_axis ((c.wcs.naxis : Int) - 1 - i) with
    | error e =>
      rw [hm] at hi
      simp [isErr] at hi
    | ok b =>
      cases b
      · simp [consumed_count, hm, List.filterMap_cons, ih hrest, Nat.add_comm]
      · simp [consumed_count, hm, List.filterMap_cons, ih hrest]

/-- With well-formed flags the loops consume exactly the non-missing count. -/
theorem consumed_count_range (c : NDCubeM)
    (hS : c.missing_axis.length = c.wcs.naxis) :
    consumed_count c (List.range c.missing_axis.length)
      = count_non_missing c.missing_axis := by
  rw [consumed_count_eq_filterMap]
  · have h := non_missing_wcs_indexes_length c hS
    unfold non_missing_wcs_indexes at h
    exact h
  · intro i hi
    have hi' : i < c.missing_axis.length := List.mem_range.mp hi
    have hcast : (c.wcs.naxis : Int) - 1 - i
        = ((c.missing_axis.length - 1 - i : Nat) : Int) := by
      rw [← hS]; omega
    rw [hcast, pyGet_lt _ _ (by omega)]
    simp [isErr]

/-- On success, the recorded indexes of the `pixel_to_world` loop are
exactly the non-missing WCS indexes of the traversed range, in visit
order. -/
theorem p2w_build_ok_idxs (uc : UnitConv) (c : NDCubeM) (q : List Quantity) (o : Int) :
    ∀ (is : List Nat) (qidx : Nat) (args : List Rat) (idxs : List Int),
      p2w_build uc c q o is qidx = .ok (args, idxs) →
      idxs = is.filterMap (fun (i : Nat) =>
        match pyGet c.missing_axis ((c.wcs.naxis : Int) - 1 - (i : Int)) with
        | .ok false => some ((c.wcs.naxis : Int) - 1 - (i : Int))
        | _ => none) := by
  intro is
  induction is with
  | nil =>
    intro qidx args idxs h
    simp only [p2w_build] at h
    obtain ⟨h1, h2⟩ := by simpa using h
    subst h2
    simp
  | cons i rest ih =>
    intro qidx args idxs h
    simp only [p2w_build] at h
    rw [List.filterMap_cons]
    cases hm : pyGet c.missing_axis ((c.wcs.naxis : Int) - 1 - (i : Int)) with
    | error e =>
      simp [hm] at h
    | ok b =>
      simp only [hm] at h
      cases b
      · cases hq : pyGet q (qidx : Int) with
        | error e => simp [hq] at h
        | ok qv =>
          simp only [hq] at h
          cases hv : qto uc qv "pix" with
          | error e => simp [hv] at h
          | ok v =>
            simp only [hv] at h
            cases hrec : p2w_build uc c q o rest (qidx + 1) with
            | error e => simp [hrec] at h
            | ok pr =>
              obtain ⟨args', idxs'⟩ := pr
              simp only [hrec] at h
              obtain ⟨h1, h2⟩ := by simpa using h
              subst h2
              simp only [hm]
              rw [ih (qidx + 1) args' idxs' hrec]
      · cases hc : pyGet c.wcs.crpix ((c.wcs.naxis : Int) - 1 - (i : Int)) with
        | error e => simp [hc] at h
        | ok cr =>
          simp only [hc] at h
          cases hrec : p2w_build uc c q o rest qidx with
          | error e => simp [hrec] at h
          | ok pr =>
            obtain ⟨args', idxs'⟩ := pr
            simp only [hrec] at h
            obtain ⟨h1, h2⟩ := by simpa using h
            subst h2
            simp only [hm]
            exact ih qidx args' idxs' hrec

/-- On success, the `pixel_to_world` collection loop returns one quantity
per recorded index, tagged with that index's declared unit. -/
theorem collect_world_ok (c : NDCubeM) (res : List Rat) :
    ∀ (l : List Int) (r : List Quantity),
      collect_world c res l = .ok r →
      r.map Quantity.unit = l.map (cunit_at c) ∧ r.length = l.length := by
  intro l
  induction l with
  | nil =>
    intro r h
    simp only [collect_world] at h
    obtain h1 := by simpa using h
    subst h1
    simp
  | cons index rest ih =>
    intro r h
    simp only [collect_world] at h
    cases hv : pyGet res index with
    | error e => simp [hv] at h
    | ok v =>
      simp only [hv] at h
      cases hcu : pyGet c.wcs.cunit index with
      | error e => simp [hcu] at h
      | ok cu =>
        simp only [hcu] at h
        cases hrec : collect_world c res rest with
        | error e => simp [hrec] at h
        | ok r' =>
          simp only [hrec] at h
          obtain h1 := by simpa using h
          subst h1
          obtain ⟨ih1, ih2⟩ := ih r' hrec
          constructor
          · simp [ih1, cunit_at, hcu]
          · simp [ih2]

/-- On success, the recorded indexes of the `world_to_pixel` loop are
exactly the non-missing WCS indexes of the traversed range, in visit
order. -/
theorem w2p_build_ok_idxs (uc : UnitConv) (c : NDCubeM) (q : List Quantity) (o : Int) :
    ∀ (is : List Nat) (qidx : Nat) (args : List Rat) (idxs : List Int),
      w2p_build uc c q o is qidx = .ok (args, idxs) →
      idxs = is.filterMap (fun (i : Nat) =>
        match pyGet c.missing_axis ((c.wcs.naxis : Int) - 1 - (i : Int)) with
        | .ok false => some ((c.wcs.naxis : Int) - 1 - (i : Int))
        | _ => none) := by
  intro is
  induction is with
  | nil =>
    intro qidx args idxs h
    simp only [w2p_build] at h
    obtain ⟨h1, h2⟩ := by simpa using h
    subst h2
    simp
  | cons i rest ih =>
    intro qidx args idxs h
    simp only [w2p_build] at h
    rw [List.filterMap_cons]
    cases hm : pyGet c.missing_axis ((c.wcs.naxis : Int) - 1 - (i : Int)) with
    | error e =>
      simp [hm] at h
    | ok b =>
      simp only [hm] at h
      cases b
      · cases hq : pyGet q (qidx : Int) with
        | error e => simp [hq] at h
        | ok qv =>
          simp only [hq] at h
          cases hcu : pyGet c.wcs.cunit ((c.wcs.naxis : Int) - 1 - (i : Int)) with
          | error e => simp [hcu] at h
          | ok cu =>
            simp only [hcu] at h
            cases hv : qto uc qv cu with
            | error e => simp [hv] at h
            | ok v =>
              simp only [hv] at h
              cases hrec : w2p_build uc c q o rest (qidx + 1) with
              | error e => simp [hrec] at h
              | ok pr =>
                obtain ⟨args', idxs'⟩ := pr
                simp only [hrec] at h
                obtain ⟨h1, h2⟩ := by simpa using h
                subst h2
                simp only [hm]
                rw [ih (qidx + 1) args' idxs' hrec]
      · cases hc : pyGet c.wcs.crval ((c.wcs.naxis : Int) - 1 - (i : Int)) with
        | error e => simp [hc] at h
        | ok cv =>
          simp only [hc] at h
          cases hrec : w2p_build uc c q o rest qidx with
          | error e => simp [hrec] at h
          | ok pr =>
            obtain ⟨args', idxs'⟩ := pr
            simp only [hrec] at h
            obtain ⟨h1, h2⟩ := by simpa using h
            subst h2
            simp only [hm]
            exact ih qidx args' idxs' hrec

/-- On success, the `world_to_pixel` collection loop returns one
pixel-tagged quantity per recorded index. -/
theorem collect_pixel_ok (res : List Rat) :
    ∀ (l : List Int) (r : List Quantity),
      collect_pixel res l = .ok r →
      r.map Quantity.unit = List.replicate l.length "pix" ∧ r.length = l.length := by
  intro l
  induction l with
  | nil =>
    intro r h
    simp only [collect_pixel] at h
    obtain h1 := by simpa using h
    subst h1
    simp
  | cons index rest ih =>
    intro r h
    simp only [collect_pixel] at h
    cases hv : pyGet res index with
    | error e => simp [hv] at h
    | ok v =>
      simp only [hv] at h
      cases hrec : collect_pixel res rest with
      | error e => simp [hrec] at h
      | ok r' =>
        simp only [hrec] at h
        obtain h1 := by simpa using h
        subst h1
        obtain ⟨ih1, ih2⟩ := ih r' hrec
        constructor
        · simp [ih1, List.replicate_succ]
        · simp [ih2]

/-- C9: for every cube with well-formed `MissingAxisFlags` (one flag per WCS
axis, R of them non-missing) and every input on which they succeed,
`pixel_to_world` and `world_to_pixel` return exactly R values in storage
order, the former tagged with each axis's declared world unit, the latter
tagged with pixel units. -/
theorem C9_output_arity_and_units (uc : UnitConv) (c : NDCubeM)
    (qp qw : List Quantity) (origin : Int) (out out2 : List Quantity)
    (hS : c.missing_axis.length = c.wcs.naxis)
    (h1 : pixel_to_world uc c qp origin = .ok out)
    (h2 : world_to_pixel uc c qw origin = .ok out2) :
    out.length = count_non_missing c.missing_axis ∧
    out.map Quantity.unit = world_units_storage_order c ∧
    out2.length = count_non_missing c.missing_axis ∧
    out2.map Quantity.unit
      = List.replicate (count_non_missing c.missing_axis) "pix" := by
  simp only [pixel_to_world] at h1
  simp only [world_to_pixel] at h2
  cases hb : p2w_build uc c qp origin (List.range c.missing_axis.length) 0 with
  | error e => simp [hb] at h1
  | ok pr =>
    obtain ⟨list_arg, idxs⟩ := pr
    simp only [hb] at h1
    cases hcol : collect_world c (c.wcs.all_pix2world list_arg.reverse origin)
        idxs.reverse with
    | error e => simp [hcol] at h1
    | ok result =>
      simp only [hcol] at h1
      obtain hout := by simpa using h1
      cases hb2 : w2p_build uc c qw origin (List.range c.missing_axis.length) 0 with
      | error e => simp [hb2] at h2
      | ok pr2 =>
        obtain ⟨list_arg2, idxs2⟩ := pr2
        simp only [hb2] at h2
        cases hcol2 : collect_pixel (c.wcs.all_world2pix list_arg2.reverse origin)
            idxs2.reverse with
        | error e => simp [hcol2] at h2
        | ok result2 =>
          simp only [hcol2] at h2
          obtain hout2 := by simpa using h2
          have hidx : idxs = non_missing_wcs_indexes c := by
            unfold non_missing_wcs_indexes
            exact p2w_build_ok_idxs uc c qp origin _ 0 list_arg idxs hb
          have hidx2 : idxs2 = non_missing_wcs_indexes c := by
            unfold non_missing_wcs_indexes
            exact w2p_build_ok_idxs uc c qw origin _ 0 list_arg2 idxs2 hb2
          obtain ⟨hu, hl⟩ := collect_world_ok c _ idxs.reverse result hcol
          obtain ⟨hu2, hl2⟩ := collect_pixel_ok _ idxs2.reverse result2 hcol2
          have hn := non_missing_wcs_indexes_length c hS
          refine ⟨?_, ?_, ?_, ?_⟩
          · rw [← hout, List.length_reverse, hl, List.length_reverse, hidx, hn]
          · rw [← hout, List.map_reverse, hu, List.map_reverse,
              List.reverse_reverse, hidx]
            rfl
          · rw [← hout2, List.length_reverse, hl2, List.length_reverse, hidx2, hn]
          · rw [← hout2, List.map_reverse, hu2, List.length_reverse,
              List.reverse_replicate, hidx2, hn]

/-- C9 witness: on the concrete one-missing-axis cube `cubeMissing2` (R = 1)
the transforms return one value each, tagged "s" and "pix" respectively. -/
theorem C9_output_arity_and_units_witness :
    ([(⟨2, "s"⟩ : Quantity)].length = count_non_missing cubeMissing2.missing_axis) ∧
    ([(⟨2, "s"⟩ : Quantity)].map Quantity.unit = world_units_storage_order cubeMissing2) ∧
    ([(⟨6, "pix"⟩ : Quantity)].length = count_non_missing cubeMissing2.missing_axis) ∧
    ([(⟨6, "pix"⟩ : Quantity)].map Quantity.unit
      = List.replicate (count_non_missing cubeMissing2.missing_axis) "pix") :=
  C9_output_arity_and_units ucStd cubeMissing2 [⟨2, "pix"⟩] [⟨3, "s"⟩] 0
    [⟨2, "s"⟩] [⟨6, "pix"⟩] (by decide)
    (by
      simp [pixel_to_world, p2w_build, collect_world, pyGet, qto, ucStd,
        cubeMissing2, wcsMissing2, swap2, List.range_succ, List.get?])
    (by
      simp [world_to_pixel, w2p_build, collect_pixel, pyGet, qto, ucStd,
        cubeMissing2, wcsMissing2, swap2, List.range_succ, List.get?]
      norm_num)

/-- The `pixel_to_world` loop reads only input positions
`qidx, …, qidx + consumed - 1`: two inputs agreeing there are
indistinguishable to it. -/
theorem p2w_build_congr_input (uc : UnitConv) (c : NDCubeM) (q q' : List Quantity)
    (o : Int) :
    ∀ (is : List Nat) (qidx : Nat),
      (∀ j : Nat, j < qidx + consumed_count c is → q.get? j = q'.get? j) →
      p2w_build uc c q o is qidx = p2w_build uc c q' o is qidx := by
  intro is
  induction is with
  | nil =>
    intro qidx _
    simp [p2w_build]
  | cons i rest ih =>
    intro qidx hq
    simp only [p2w_build]
    cases hm : pyGet c.missing_axis ((c.wcs.naxis : Int) - 1 - (i : Int)) with
    | error e => simp [hm]
    | ok b =>
      cases b
      · have hcons : consumed_count c (i :: rest) = 1 + consumed_count c rest := by
          simp [consumed_count, hm]
        have hqe : pyGet q (qidx : Int) = pyGet q' (qidx : Int) := by
          rw [pyGet_natCast, pyGet_natCast, hq qidx (by rw [hcons]; omega)]
        have hrec := ih (qidx + 1) (fun j hj => hq j (by rw [hcons]; omega))
        simp only [hm, hqe, hrec]
      · have hcons : consumed_count c (i :: rest) = consumed_count c rest := by
          simp [consumed_count, hm]
        have hrec := ih qidx (fun j hj => hq j (by rw [hcons]; omega))
        simp only [hm, hrec]

/-- The `world_to_pixel` loop reads only input positions
`qidx, …, qidx + consumed - 1`. -/
theorem w2p_build_congr_input (uc : UnitConv) (c : NDCubeM) (q q' : List Quantity)
    (o : Int) :
    ∀ (is : List Nat) (qidx : Nat),
      (∀ j : Nat, j < qidx + consumed_count c is → q.get? j = q'.get? j) →
      w2p_build uc c q o is qidx = w2p_build uc c q' o is qidx := by
  intro is
  induction is with
  | nil =>
    intro qidx _
    simp [w2p_build]
  | cons i rest ih =>
    intro qidx hq
    simp only [w2p_build]
    cases hm : pyGet c.missing_axis ((c.wcs.naxis : Int) - 1 - (i : Int)) with
    | error e => simp [hm]
    | ok b =>
      cases b
      · have hcons : consumed_count c (i :: rest) = 1 + consumed_count c rest := by
          simp [consumed_count, hm]
        have hqe : pyGet q (qidx : Int) = pyGet q' (qidx : Int) := by
          rw [pyGet_natCast, pyGet_natCast, hq qidx (by rw [hcons]; omega)]
        have hrec := ih (qidx + 1) (fun j hj => hq j (by rw [hcons]; omega))
        simp only [hm, hqe, hrec]
      · have hcons : consumed_count c (i :: rest) = consumed_count c rest := by
          simp [consumed_count, hm]
        have hrec := ih qidx (fun j hj => hq j (by rw [hcons]; omega))
        simp only [hm, hrec]

/-- When the input list is too short for the positions the loop will
consume, the `pixel_to_world` loop raises. -/
theorem p2w_build_short_err (uc : UnitConv) (c : NDCubeM) (q : List Quantity)
    (o : Int) :
    ∀ (is : List Nat) (qidx : Nat),
      qidx ≤ q.length → q.length < qidx + consumed_count c is →
      isErr (p2w_build uc c q o is qidx) = true := by
  intro is
  induction is with
  | nil =>
    intro qidx h1 h2
    simp only [consumed_count] at h2
    exact absurd h2 (by omega)
  | cons i rest ih =>
    intro qidx h1 h2
    simp only [p2w_build]
    cases hm : pyGet c.missing_axis ((c.wcs.naxis : Int) - 1 - (i : Int)) with
    | error e => simp [hm, isErr]
    | ok b =>
      cases b
      · simp only [consumed_count, hm] at h2
        by_cases hql : qidx < q.length
        · have hget : pyGet q (qidx : Int) = .ok q[qidx] :=
            pyGet_lt q qidx hql
          cases hv : qto uc q[qidx] "pix" with
          | error e => simp [hm, hget, hv, isErr]
          | ok v =>
            obtain ⟨e, he⟩ := (isErr_true_iff _).mp
              (ih (qidx + 1) (by omega) (by omega))
            simp [hm, hget, hv, he, isErr]
        · simp [hm, pyGet_ge q qidx (by omega), isErr]
      · simp only [consumed_count, hm] at h2
        cases hc : pyGet c.wcs.crpix ((c.wcs.naxis : Int) - 1 - (i : Int)) with
        | error e => simp [hm, hc, isErr]
        | ok cr =>
          obtain ⟨e, he⟩ := (isErr_true_iff _).mp (ih qidx h1 h2)
          simp [hm, hc, he, isErr]

/-- When the input list is too short for the positions the loop will
consume, the `world_to_pixel` loop raises. -/
theorem w2p_build_short_err (uc : UnitConv) (c : NDCubeM) (q : List Quantity)
    (o : Int) :
    ∀ (is : List Nat) (qidx : Nat),
      qidx ≤ q.length → q.length < qidx + consumed_count c is →
      isErr (w2p_build uc c q o is qidx) = true := by
  intro is
  induction is with
  | nil =>
    intro qidx h1 h2
    simp only [consumed_count] at h2
    exact absurd h2 (by omega)
  | cons i rest ih =>
    intro qidx h1 h2
    simp only [w2p_build]
    cases hm : pyGet c.missing_axis ((c.wcs.naxis : Int) - 1 - (i : Int)) with
    | error e => simp [hm, isErr]
    | ok b =>
      cases b
      · simp only [consumed_count, hm] at h2
        by_cases hql : qidx < q.length
        · have hget : pyGet q (qidx : Int) = .ok q[qidx] :=
            pyGet_lt q qidx hql
          cases hcu : pyGet c.wcs.cunit ((c.wcs.naxis : Int) - 1 - (i : Int)) with
          | error e => simp [hm, hget, hcu, isErr]
          | ok cu =>
            cases hv : qto uc q[qidx] cu with
            | error e => simp [hm, hget, hcu, hv, isErr]
            | ok v =>
              obtain ⟨e, he⟩ := (isErr_true_iff _).mp
                (ih (qidx + 1) (by omega) (by omega))
              simp [hm, hget, hcu, hv, he, isErr]
        · simp [hm, pyGet_ge q qidx (by omega), isErr]
      · simp only [consumed_count, hm] at h2
        cases hc : pyGet c.wcs.crval ((c.wcs.naxis : Int) - 1 - (i : Int)) with
        | error e => simp [hm, hc, isErr]
        | ok cv =>
          obtain ⟨e, he⟩ := (isErr_true_iff _).mp (ih qidx h1 h2)
          simp [hm, hc, he, isErr]

/-- C10: with well-formed flags (R non-missing axes), `pixel_to_world` and
`world_to_pixel` behave identically on any input list and on its length-R
prefix: entries beyond the first R are never read, so longer inputs return
the same R results as the prefix alone, raising no error. -/
theorem C10_excess_input_ignored (uc : UnitConv) (c : NDCubeM)
    (q : List Quantity) (origin : Int)
    (hS : c.missing_axis.length = c.wcs.naxis) :
    pixel_to_world uc c q origin
      = pixel_to_world uc c (q.take (count_non_missing c.missing_axis)) origin ∧
    world_to_pixel uc c q origin
      = world_to_pixel uc c (q.take (count_non_missing c.missing_axis)) origin := by
  have hcons := consumed_count_range c hS
  have hq : ∀ j : Nat,
      j < 0 + consumed_count c (List.range c.missing_axis.length) →
      q.get? j = (q.take (count_non_missing c.missing_axis)).get? j := by
    intro j hj
    rw [hcons] at hj
    have hj' : j < count_non_missing c.missing_axis := by omega
    rw [List.get?_eq_getElem?, List.get?_eq_getElem?, List.getElem?_take,
      if_pos hj']
  constructor
  · unfold pixel_to_world
    rw [p2w_build_congr_input uc c q _ origin (List.range c.missing_axis.length) 0 hq]
  · unfold world_to_pixel
    rw [w2p_build_congr_input uc c q _ origin (List.range c.missing_axis.length) 0 hq]

/-- C10 witness: on the rank-1 cube `cubePix1`, a length-2 input behaves
exactly like its length-1 prefix for both transforms. -/
theorem C10_excess_input_ignored_witness :
    pixel_to_world ucStd cubePix1 [⟨2, "pix"⟩, ⟨3, "pix"⟩] 0
      = pixel_to_world ucStd cubePix1
          ([(⟨2, "pix"⟩ : Quantity), ⟨3, "pix"⟩].take
            (count_non_missing cubePix1.missing_axis)) 0 ∧
    world_to_pixel ucStd cubePix1 [⟨2, "pix"⟩, ⟨3, "pix"⟩] 0
      = world_to_pixel ucStd cubePix1
          ([(⟨2, "pix"⟩ : Quantity), ⟨3, "pix"⟩].take
            (count_non_missing cubePix1.missing_axis)) 0 :=
  C10_excess_input_ignored ucStd cubePix1 [⟨2, "pix"⟩, ⟨3, "pix"⟩] 0 (by decide)

/-- C3 (amended): the transforms reject no input by length — there is no
ArgumentCountError check.  An input shorter than R fails, but with the
IndexError raised when the loop consumes past the end (or an earlier
conversion error); an input longer than R is accepted and its excess
entries are ignored (see the counterexample). -/
theorem C3_short_input_fails (uc : UnitConv) (c : NDCubeM)
    (q : List Quantity) (origin : Int)
    (hS : c.missing_axis.length = c.wcs.naxis)
    (hlen : q.length < count_non_missing c.missing_axis) :
    isErr (pixel_to_world uc c q origin) = true ∧
    isErr (world_to_pixel uc c q origin) = true := by
  have hcons := consumed_count_range c hS
  have h1 := p2w_build_short_err uc c q origin (List.range c.missing_axis.length) 0
    (Nat.zero_le _) (by rw [hcons]; omega)
  have h2 := w2p_build_short_err uc c q origin (List.range c.missing_axis.length) 0
    (Nat.zero_le _) (by rw [hcons]; omega)
  obtain ⟨e1, he1⟩ := (isErr_true_iff _).mp h1
  obtain ⟨e2, he2⟩ := (isErr_true_iff _).mp h2
  constructor
  · simp [pixel_to_world, he1, isErr]
  · simp [world_to_pixel, he2, isErr]

/-- C3 witness: on `cubeMissing2` (R = 1) the empty input makes both
transforms raise. -/
theorem C3_short_input_fails_witness :
    isErr (pixel_to_world ucStd cubeMissing2 [] 0) = true ∧
    isErr (world_to_pixel ucStd cubeMissing2 [] 0) = true :=
  C3_short_input_fails ucStd cubeMissing2 [] 0 (by decide) (by decide)

/-- C8 (amended): `crop_by_coords` rounds each pixel boundary with
`np.rint`'s round-half-to-even rule, applied identically to both
boundaries: a tie `n + 0.5` rounds to `n` when `n` is even and to `n + 1`
when `n` is odd (so the boundary 0.5 of the concrete crop rounds to 0, not
to 1). -/
theorem C8_crop_rounds_half_to_even :
    (∀ n : Int, rint ((n : Rat) + 1 / 2) = if n % 2 = 0 then n else n + 1) ∧
    crop_by_coords ucStd cubeHalf1 [⟨1, "m"⟩] [⟨5, "m"⟩] = .ok [(0, 3)] := by
  constructor
  · intro n
    have hf : (⌊(n : Rat) + 1 / 2⌋ : Int) = n := by
      rw [add_comm, Int.floor_add_int]
      norm_num
    unfold rint
    rw [hf]
    have h2 : ((n : Rat) + 1 / 2) - ((n : Int) : Rat) = 1 / 2 := by
      ring
    rw [h2]
    norm_num
  · simp [crop_by_coords, dimensions_len, world_to_pixel, w2p_build, collect_pixel,
      pyGet, qto, qadd, rint, ucStd, cubeHalf1, wcsHalf1, List.range_succ, List.get?,
      List.mapM, List.mapM.loop, List.filter, List.getD, Bind.bind, Except.bind,
      Pure.pure, Except.pure]
    norm_num [Int.fract]

/-- `pyGet` raises on any index at or past the length (Int form). -/
theorem pyGet_ge_int {α : Type} (l : List α) (a : Int)
    (h : (l.length : Int) ≤ a) : pyGet l a = .error .indexError := by
  have h0 : ¬ a < 0 := by omega
  have hn : l[a.toNat]? = none := by
    rw [← List.get?_eq_getElem?]
    exact List.get?_eq_none.mpr (by omega)
  simp [pyGet, h0, hn]

/-- `foldl max` dominates its initial value. -/
theorem init_le_foldl_max : ∀ (l : List Int) (init : Int), init ≤ l.foldl max init := by
  intro l
  induction l with
  | nil => intro init; exact le_refl init
  | cons b rest ih =>
    intro init
    exact le_trans (le_max_left init b) (ih (max init b))

/-- `foldl max` dominates every member. -/
theorem mem_le_foldl_max : ∀ (l : List Int) (init a : Int), a ∈ l → a ≤ l.foldl max init := by
  intro l
  induction l with
  | nil => intro init a ha; cases ha
  | cons b rest ih =>
    intro init a ha
    rcases List.mem_cons.mp ha with h | h
    · subst h
      exact le_trans (le_max_right init a) (init_le_foldl_max rest (max init a))
    · exact ih (max init b) a h

/-- Python `max` bounds every member of the tuple. -/
theorem pyMax_ok_bound (axes : List Int) (m a : Int)
    (hm : pyMax axes = .ok m) (ha : a ∈ axes) : a ≤ m := by
  cases axes with
  | nil => cases ha
  | cons x rest =>
    obtain hm' := by simpa [pyMax] using hm
    subst hm'
    rcases List.mem_cons.mp ha with h | h
    · subst h
      exact init_le_foldl_max rest a
    · exact mem_le_foldl_max rest x a h

/-- A `mapM` over `Except` whose steps all succeed succeeds. -/
theorem mapM_ok_of_forall {α β : Type} (f : α → Except PyErr β) :
    ∀ l : List α, (∀ x ∈ l, ¬ isErr (f x) = true) → ∃ r, l.mapM f = .ok r := by
  intro l
  induction l with
  | nil => intro _; exact ⟨[], rfl⟩
  | cons x rest ih =>
    intro h
    have hx := h x (List.mem_cons_self x rest)
    cases hf : f x with
    | error e => rw [hf] at hx; simp [isErr] at hx
    | ok b =>
      obtain ⟨bs, hbs⟩ := ih (fun y hy => h y (List.mem_cons_of_mem _ hy))
      have hbs' : List.mapM.loop f rest [] = Except.ok bs := hbs
      exact ⟨b :: bs, by
        rw [List.mapM_cons]
        simp [hf, hbs, hbs', Bind.bind, Except.bind, Pure.pure, Except.pure]⟩

/-- A successful `mapM` over `Except` preserves length. -/
theorem mapM_ok_length {α β : Type} (f : α → Except PyErr β) :
    ∀ (l : List α) (r : List β), l.mapM f = .ok r → r.length = l.length := by
  intro l
  induction l with
  | nil =>
    intro r h
    have h' : (Except.ok [] : Except PyErr (List β)) = .ok r := h
    obtain h'' := by simpa using h'
    subst h''
    rfl
  | cons x rest ih =>
    intro r h
    rw [List.mapM_cons] at h
    cases hf : f x with
    | error e => simp [hf, Bind.bind, Except.bind] at h
    | ok b =>
      simp only [hf, Bind.bind, Except.bind] at h
      cases hrec : rest.mapM f with
      | error e =>
        have hrec' : List.mapM.loop f rest [] = Except.error e := hrec
        simp [hrec, hrec'] at h
      | ok bs =>
        have hrec' : List.mapM.loop f rest [] = Except.ok bs := hrec
        simp only [hrec, hrec'] at h
        obtain h' := by simpa [Pure.pure, Except.pure] using h
        subst h'
        simp [ih bs hrec]

/-- Pointwise `get?` hits of two lists give the `get?` hit of their zip. -/
theorem get?_zip_of_get? {α β : Type} :
    ∀ (l : List α) (l' : List β) (k : Nat) (x : α) (y : β),
      l.get? k = some x → l'.get? k = some y → (l.zip l').get? k = some (x, y) := by
  intro l
  induction l with
  | nil => intro l' k x y hx; simp at hx
  | cons a rest ih =>
    intro l' k x y hx hy
    cases l' with
    | nil => simp at hy
    | cons b rest' =>
      cases k with
      | zero =>
        obtain hx' := by simpa using hx
        obtain hy' := by simpa using hy
        subst hx'
        subst hy'
        rfl
      | succ k =>
        simp only [List.zip_cons_cons, List.get?_cons_succ] at *
        exact ih rest' k x y hx hy

/-- If some axis lookup of a member raises, the inner extent-comparison
loop of `_sanitize_aligned_axes` raises (its `cube0_dims[j]` lookups being
in range). -/
theorem cube_lengths_check_err (dims cube0_dims : List Nat) :
    ∀ (axes : List Int) (j : Nat),
      j + axes.length = cube0_dims.length →
      (∃ a ∈ axes, isErr (pyGet dims a) = true) →
      isErr (cube_lengths_check dims cube0_dims axes j) = true := by
  intro axes
  induction axes with
  | nil =>
    intro j _ hex
    obtain ⟨a, ha, _⟩ := hex
    cases ha
  | cons axis rest ih =>
    intro j hlen hex
    simp only [cube_lengths_check]
    cases hd : pyGet dims axis with
    | error e => simp [hd, isErr]
    | ok d =>
      simp only [List.length_cons] at hlen
      have hj : j < cube0_dims.length := by omega
      obtain ⟨a, ha, herr⟩ := hex
      rcases List.mem_cons.mp ha with h | h
      · subst h
        rw [hd] at herr
        simp [isErr] at herr
      · obtain ⟨e, he⟩ := (isErr_true_iff _).mp
          (ih (j + 1) (by omega) ⟨a, h, herr⟩)
        simp [hd, pyGet_lt cube0_dims j hj, he, isErr]

/-- If some member references an axis index at or beyond its own rank, the
per-cube validation loop of `_sanitize_aligned_axes` raises — with the
dedicated range error when the index strictly exceeds the rank (or the
aligned-axis count exceeds it), and with the IndexError of the extent
lookup when the index equals the rank. -/
theorem member_checks_err (cube0_dims : List Nat) (nA : Nat) :
    ∀ pairs : List (List Nat × List Int),
      (∀ p ∈ pairs, p.2.length = cube0_dims.length) →
      (∃ p ∈ pairs, ∃ a ∈ p.2, (p.1.length : Int) ≤ a) →
      isErr (member_checks cube0_dims nA pairs) = true := by
  intro pairs
  induction pairs with
  | nil =>
    intro _ hex
    obtain ⟨p, hp, _⟩ := hex
    cases hp
  | cons pr rest ih =>
    obtain ⟨dims, axes⟩ := pr
    intro hall hex
    simp only [member_checks]
    cases hmax : pyMax axes with
    | error e => simp [hmax, isErr]
    | ok M =>
      by_cases hrange : (dims.length : Int) < max M (nA : Int)
      · simp [hmax, hrange, isErr]
      · rcases hex with ⟨p, hp, a, ha, hba⟩
        rcases List.mem_cons.mp hp with hh | hh
        · subst hh
          have hclc : isErr (cube_lengths_check dims cube0_dims axes 0) = true := by
            apply cube_lengths_check_err dims cube0_dims axes 0
            · simpa using hall (dims, axes) (List.mem_cons_self _ _)
            · exact ⟨a, ha, by rw [pyGet_ge_int dims a hba]; rfl⟩
          obtain ⟨e, he⟩ := (isErr_true_iff _).mp hclc
          simp [hmax, hrange, he, isErr]
        · cases hclc : cube_lengths_check dims cube0_dims axes 0 with
          | error e => simp [hmax, hrange, hclc, isErr]
          | ok flags =>
            obtain ⟨e, he⟩ := (isErr_true_iff _).mp
              (ih (fun q hq => hall q (List.mem_cons_of_mem _ hq)) ⟨p, hh, a, ha, hba⟩)
            simp [hmax, hrange, hclc, he, isErr]

/-- C6 counterexample: member 1 references axis 5, at least its rank 2, and
the per-member tuples have unequal lengths — both violations present — yet
normalize fails with the equal-length error, not AlignmentAxisOutOfRange. -/
theorem C6_length_check_fires_first_counterexample :
    sanitize_aligned_axes [[7], [3, 4]] (.aTupleTuple [[0], [5, 1]])
      = .error .sameLengthError ∧
    PyErr.sameLengthError ≠ PyErr.axisRangeError := by
  decide

/-- C6 (amended): in the per-member-tuples form, the equal-length check
fires *before* the out-of-range check — whenever the tuples' lengths
disagree (and member 0's prefetched extents are in range) the result is the
AlignmentLengthMismatch error, regardless of any out-of-range axis; and a
referenced axis index at or beyond its member's rank always makes normalize
fail (with the dedicated range error when it strictly exceeds the rank or
the aligned count exceeds the rank, with an index error from the prefetch
or the extent lookup when it equals the rank). -/
theorem C6_length_mismatch_precedes_range_check :
    (∀ (data : List (List Nat)) (ll : List (List Int)),
        data.length = ll.length →
        data ≠ [] →
        (∀ a ∈ ll.headD [], ¬ isErr (pyGet (data.headD []) a) = true) →
        ¬ (∀ t ∈ ll, t.length = (ll.headD []).length) →
        sanitize_aligned_axes data (.aTupleTuple ll) = .error .sameLengthError) ∧
    (∀ (data : List (List Nat)) (ll : List (List Int)) (k : Nat)
        (dims : List Nat) (axes : List Int) (a : Int),
        data.get? k = some dims → ll.get? k = some axes → a ∈ axes →
        (dims.length : Int) ≤ a →
        isErr (sanitize_aligned_axes data (.aTupleTuple ll)) = true) := by
  constructor
  · intro data ll hlen hne hpre hmis
    cases data with
    | nil => exact absurd rfl hne
    | cons dims0 data' =>
      cases ll with
      | nil => simp at hlen
      | cons first ll' =>
        have h0 : pyGet (first :: ll') (0 : Int) = .ok first := by
          simp [pyGet]
        have hpre' : ∀ a ∈ first, ¬ isErr (pyGet dims0 a) = true := by
          simpa using hpre
        obtain ⟨cube0, hc0⟩ := mapM_ok_of_forall (fun ax => pyGet dims0 ax) first hpre'
        have hall : ¬ ((first :: ll').all
            (fun axes => axes.length == first.length) = true) := by
          intro hcontra
          apply hmis
          intro t ht
          have := List.all_eq_true.mp hcontra t ht
          simpa using this
        simp only [sanitize_aligned_axes, h0, hc0]
        rw [if_neg (by simp [hlen.symm]), if_neg hall]
  · intro data ll k dims axes a hdk hlk ha hba
    cases data with
    | nil => simp at hdk
    | cons dims0 data' =>
      cases ll with
      | nil => simp at hlk
      | cons first ll' =>
        have h0 : pyGet (first :: ll') (0 : Int) = .ok first := by
          simp [pyGet]
        simp only [sanitize_aligned_axes, h0]
        cases hm0 : first.mapM (fun ax => pyGet dims0 ax) with
        | error e => simp [isErr]
        | ok cube0 =>
          simp only [hm0]
          have hc0len : cube0.length = first.length :=
            mapM_ok_length _ first cube0 hm0
          by_cases hnc : (first :: ll').length ≠ (dims0 :: data').length
          · rw [if_pos hnc]
            rfl
          · rw [if_neg hnc]
            by_cases hall : ((first :: ll').all
                (fun axes => axes.length == first.length) = true)
            · have hpairs : ∀ p ∈ (dims0 :: data').zip (first :: ll'),
                  p.2.length = cube0.length := by
                intro p hp
                obtain ⟨x, y⟩ := p
                have h2 := (List.of_mem_zip hp).2
                have h3 := List.all_eq_true.mp hall y h2
                simp only [beq_iff_eq] at h3
                simpa using h3.trans hc0len.symm
              have hmem : (dims, axes) ∈ (dims0 :: data').zip (first :: ll') :=
                List.get?_mem (get?_zip_of_get? _ _ k dims axes hdk hlk)
              obtain ⟨e, he⟩ := (isErr_true_iff _).mp
                (member_checks_err cube0 first.length _ hpairs
                  ⟨(dims, axes), hmem, a, ha, hba⟩)
              rw [if_pos hall, he]
              rfl
            · rw [if_neg hall]
              rfl

/-- C6 witness: the length-mismatch conclusion at the counterexample input,
and the guaranteed failure for an in-bounds-rank violation (axis 2 on a
rank-1 member). -/
theorem C6_length_mismatch_precedes_range_check_witness :
    sanitize_aligned_axes [[9], [3, 4]] (.aTupleTuple [[0], [5, 1]])
      = .error .sameLengthError ∧
    isErr (sanitize_aligned_axes [[7]] (.aTupleTuple [[2]])) = true :=
  ⟨C6_length_mismatch_precedes_range_check.1 [[9], [3, 4]] [[0], [5, 1]]
      (by decide) (by decide) (by decide) (by decide),
    C6_length_mismatch_precedes_range_check.2 [[7]] [[2]] 0 [7] [2] 2
      (by decide) (by decide) (by decide) (by decide)⟩
